import Mathlib

/-!
Shallow embedding of the quote-aggregation and swap-execution orchestrator
(`SwapService`) of the SuperiorAgents repository.

The service exists in two near-identical variants:
`meta-swap-api/src/swap/...` (resolves token decimals, scales the decimal
input amount with `ethers.parseUnits`, and runtime-checks the chain family of
the unsigned transaction) and `tee-txn-signer/src/swap/swap.service.ts`
(fixed 18 decimals, amount taken pre-scaled, no family check).  The
definitions below follow the richer meta-swap-api variant; the functions
shared by both variants (`getTokenInfos`, `getActiveProviders`,
`getQuotesFromProviders`, `getBestQuote`, the orchestration entry points)
are literally identical in the two files.

Concurrency model: the service fans out provider calls with
`Promise.all(list.map(async p => { ...; acc.push(...) }))`.  Every callback
runs to its first `await` in list order, then suspends; the `push` happens in
the continuation, which runs when that provider's promise settles.  Hence the
pushes occur in *settlement order*, an arbitrary permutation of the list.
We make that explicit: each fan-out takes a schedule `sched : List Nat`, the
list of provider indices in settlement order (faithful schedules are exactly
the permutations of `List.range n`).  Everything else is sequential.

Numeric model: `BigNumber`/`bigint` quantities are `Int` (arbitrary
precision); the decimal `liquidity.usd` threshold value and the slippage
percentage are `ℚ`.
-/

namespace SwapCore

/-- Chain identifiers (`ChainId` enum); only the two members used by
`dexScreenChainIdMap` matter here. -/
inductive ChainId where
  | ethereum
  | sol
deriving DecidableEq

/-- Token reference: address, chain and resolved decimals
(`TokenInfo`/token side of `SwapParams` in `swap.interface.ts`). -/
structure TokenRef where
  address : String
  chainId : ChainId
  decimals : Nat
deriving DecidableEq

/-- Canonical swap parameters (`SwapParams`).  `amount` is in base units of
`fromToken` (a `BigNumber` integer in the source); `recipient` is optional
and absent until the execution step injects it. -/
structure SwapParams where
  fromToken : TokenRef
  toToken : TokenRef
  amount : Int
  slippageTolerance : ℚ
  recipient : Option String := none

/-- A provider quote (`SwapQuote`): output amount and fee are `BigNumber`
values compared with `.gt`/`.eq`/`.lt`. -/
structure SwapQuote where
  outputAmount : Int
  fee : Int
  estimatedGas : Option Int := none

/-- Unsigned transaction: discriminated union over chain families.  The
source discriminates by the presence of an `instructions` field
(`if ('instructions' in tx)`). -/
inductive UnsignedTx where
  | evm (toAddr : String) (data : String) (value : Option String) (gasLimit : Option String)
  | solana (instructions : List String)

/-- A swap provider behind the capability interface (`ISwapProvider`).
Fallible provider calls are `Except Unit`: `Except.error ()` stands for a
rejected promise (a thrown error, content irrelevant because every caller
discards it). -/
structure SwapProvider where
  name : String
  isInit : Except Unit Bool
  isSwapSupported : TokenRef → TokenRef → Except Unit Bool
  getSwapQuote : SwapParams → Except Unit SwapQuote
  getUnsignedTransaction : SwapParams → Except Unit UnsignedTx
  supportedChains : List ChainId

/-- `ProviderQuote`: a `SwapQuote` spread together with the provider that
produced it (`{ ...quote, provider }`). -/
structure ProviderQuote extends SwapQuote where
  provider : SwapProvider

/-- One step of the `quotes.reduce((best, current) => ...)` body of
`getBestQuote`: higher `outputAmount` wins; on equal `outputAmount` a
strictly lower `fee` wins; otherwise the running best is kept. -/
def bestStep (best current : ProviderQuote) : ProviderQuote :=
  if best.outputAmount < current.outputAmount then current
  else if current.outputAmount = best.outputAmount ∧ current.fee < best.fee then current
  else best

/-- `getBestQuote`: `null` on the empty list, otherwise `reduce` seeded with
the first element. -/
def getBestQuote : List ProviderQuote → Option ProviderQuote
  | [] => none
  | q :: qs => some (qs.foldl bestStep q)

/-- Invariant of the running fold of `getBestQuote`: the result dominates
the seed and every processed quote on `outputAmount`, has minimal `fee`
among quotes tied on its `outputAmount`, and is the earliest quote carrying
its `(outputAmount, fee)` value. -/
theorem bestStep_foldl_inv (qs : List ProviderQuote) : ∀ b : ProviderQuote,
    (b.outputAmount ≤ (qs.foldl bestStep b).outputAmount)
    ∧ (∀ x ∈ qs, x.outputAmount ≤ (qs.foldl bestStep b).outputAmount)
    ∧ (b.outputAmount = (qs.foldl bestStep b).outputAmount →
        (qs.foldl bestStep b).fee ≤ b.fee)
    ∧ (∀ x ∈ qs, x.outputAmount = (qs.foldl bestStep b).outputAmount →
        (qs.foldl bestStep b).fee ≤ x.fee)
    ∧ (∃ pre post, b :: qs = pre ++ (qs.foldl bestStep b) :: post
        ∧ ∀ x ∈ pre, ¬(x.outputAmount = (qs.foldl bestStep b).outputAmount
            ∧ x.fee = (qs.foldl bestStep b).fee)) := by
  induction qs with
  | nil =>
    intro b
    refine ⟨le_refl _, by simp, fun _ => le_refl _, by simp, [], [], rfl, by simp⟩
  | cons c qs ih =>
    intro b
    by_cases hlt : b.outputAmount < c.outputAmount
    · -- the incoming quote strictly improves the output amount
      have hb : bestStep b c = c := by simp [bestStep, hlt]
      have hfold : (c :: qs).foldl bestStep b = qs.foldl bestStep c := by
        rw [List.foldl_cons, hb]
      obtain ⟨ih1, ih2, ih3, ih4, pre, post, ihsplit, ihpre⟩ := ih c
      rw [hfold]
      refine ⟨by linarith, ?_, ?_, ?_, ?_⟩
      · intro x hx
        rcases List.mem_cons.mp hx with rfl | hx
        · exact ih1
        · exact ih2 x hx
      · intro h
        exact absurd h (by intro h; linarith)
      · intro x hx hout
        rcases List.mem_cons.mp hx with rfl | hx
        · exact ih3 hout
        · exact ih4 x hx hout
      · refine ⟨b :: pre, post, ?_, ?_⟩
        · rw [List.cons_append]
          exact congrArg (List.cons b) ihsplit
        · intro x hx
          rcases List.mem_cons.mp hx with rfl | hx
          · rintro ⟨hout, -⟩
            linarith
          · exact ihpre x hx
    · by_cases heqf : c.outputAmount = b.outputAmount ∧ c.fee < b.fee
      · -- equal output amount, strictly smaller fee: the incoming quote wins
        have hb : bestStep b c = c := by simp [bestStep, hlt, heqf]
        have hfold : (c :: qs).foldl bestStep b = qs.foldl bestStep c := by
          rw [List.foldl_cons, hb]
        obtain ⟨ih1, ih2, ih3, ih4, pre, post, ihsplit, ihpre⟩ := ih c
        rw [hfold]
        obtain ⟨hceq, hcfee⟩ := heqf
        refine ⟨by linarith, ?_, ?_, ?_, ?_⟩
        · intro x hx
          rcases List.mem_cons.mp hx with rfl | hx
          · exact ih1
          · exact ih2 x hx
        · intro h
          have := ih3 (by linarith)
          linarith
        · intro x hx hout
          rcases List.mem_cons.mp hx with rfl | hx
          · exact ih3 hout
          · exact ih4 x hx hout
        · refine ⟨b :: pre, post, ?_, ?_⟩
          · rw [List.cons_append]
            exact congrArg (List.cons b) ihsplit
          · intro x hx
            rcases List.mem_cons.mp hx with rfl | hx
            · rintro ⟨hout, hfee⟩
              have := ih3 (by linarith)
              linarith
            · exact ihpre x hx
      · -- the running best is kept
        have hb : bestStep b c = b := by simp [bestStep, hlt, heqf]
        have hfold : (c :: qs).foldl bestStep b = qs.foldl bestStep b := by
          rw [List.foldl_cons, hb]
        obtain ⟨ih1, ih2, ih3, ih4, pre, post, ihsplit, ihpre⟩ := ih b
        rw [hfold]
        have hcb : c.outputAmount ≤ b.outputAmount := le_of_not_lt hlt
        have hnotimp : c.outputAmount = b.outputAmount → b.fee ≤ c.fee := by
          intro h
          by_contra hcon
          exact heqf ⟨h, by linarith⟩
        refine ⟨ih1, ?_, ih3, ?_, ?_⟩
        · intro x hx
          rcases List.mem_cons.mp hx with rfl | hx
          · exact le_trans hcb ih1
          · exact ih2 x hx
        · intro x hx hout
          rcases List.mem_cons.mp hx with rfl | hx
          · have hbr : b.outputAmount = (qs.foldl bestStep b).outputAmount := by
              apply le_antisymm ih1
              linarith
            have := hnotimp (by linarith)
            have := ih3 hbr
            linarith
          · exact ih4 x hx hout
        · cases pre with
          | nil =>
            simp only [List.nil_append] at ihsplit
            injection ihsplit with hr hpost
            refine ⟨[], c :: qs, ?_, by simp⟩
            rw [List.nil_append, ← hr]
          | cons p0 pre2 =>
            rw [List.cons_append] at ihsplit
            injection ihsplit with hp0 hqs
            have hbpre := ihpre p0 (List.mem_cons_self p0 pre2)
            rw [← hp0] at hbpre
            refine ⟨b :: c :: pre2, post, ?_, ?_⟩
            · conv_lhs => rw [hqs]
              simp [List.cons_append]
            · intro x hx
              rcases List.mem_cons.mp hx with rfl | hx
              · exact hbpre
              rcases List.mem_cons.mp hx with rfl | hx
              · rintro ⟨hout, hfee⟩
                have hbr : b.outputAmount = (qs.foldl bestStep b).outputAmount := by
                  apply le_antisymm ih1
                  linarith
                have hbfee : b.fee ≠ (qs.foldl bestStep b).fee := by
                  intro hcon
                  exact hbpre ⟨hbr, hcon⟩
                have hle := ih3 hbr
                exact heqf ⟨by linarith, by
                  rcases lt_or_eq_of_le hle with h | h
                  · linarith
                  · exact absurd h.symm hbfee⟩
              · exact ihpre x (List.mem_cons_of_mem p0 hx)

/-- C1: the quote returned by `getBestQuote` on a non-empty list has an
`outputAmount` greater than or equal to that of every quote in the list;
among quotes whose `outputAmount` equals that maximum it has the minimal
`fee`; and among quotes tied on both `outputAmount` and `fee` the quote
occurring earliest in the input list is returned. -/
theorem getBestQuote_spec (l : List ProviderQuote) (b : ProviderQuote)
    (hb : getBestQuote l = some b) :
    (∀ x ∈ l, x.outputAmount ≤ b.outputAmount)
    ∧ (∀ x ∈ l, x.outputAmount = b.outputAmount → b.fee ≤ x.fee)
    ∧ (∃ pre post, l = pre ++ b :: post
        ∧ ∀ x ∈ pre, ¬(x.outputAmount = b.outputAmount ∧ x.fee = b.fee)) := by
  cases l with
  | nil => exact absurd hb (by simp [getBestQuote])
  | cons q qs =>
    have hbq : qs.foldl bestStep q = b := by
      have : some (qs.foldl bestStep q) = some b := hb
      exact Option.some.inj this
    obtain ⟨h1, h2, h3, h4, pre, post, hsplit, hpre⟩ := bestStep_foldl_inv qs q
    rw [hbq] at h1 h2 h3 h4 hsplit hpre
    refine ⟨?_, ?_, pre, post, hsplit, hpre⟩
    · intro x hx
      rcases List.mem_cons.mp hx with hx | hx
      · exact hx ▸ h1
      · exact h2 x hx
    · intro x hx hout
      rcases List.mem_cons.mp hx with hx | hx
      · exact hx ▸ h3 (hx ▸ hout)
      · exact h4 x hx hout

/-- Truthiness test applied to the awaited `isInit()` result:
`if (isInit) activeProviders.push(provider)` inside a `try` whose `catch`
only logs, so a thrown error (`Except.error`) or `false` contributes
nothing. -/
def activePred (p : SwapProvider) : Bool :=
  match p.isInit with
  | Except.ok true => true
  | _ => false

/-- `getActiveProviders`: fans out `isInit()` over the registry with
`Promise.all` and pushes each passing provider when its promise settles.
`sched` is the settlement order of the fan-out, as a list of registry
indices (a faithful schedule is a permutation of `List.range
providers.length`). -/
def getActiveProviders (providers : List SwapProvider) (sched : List Nat) :
    List SwapProvider :=
  (sched.filterMap (fun i => providers.get? i)).filter activePred

/-- Reading every index of a list in order reproduces the list. -/
theorem filterMap_get?_range (l : List SwapProvider) :
    (List.range l.length).filterMap (fun i => l.get? i) = l := by
  induction l with
  | nil => rfl
  | cons a t ih =>
    rw [List.length_cons, List.range_succ_eq_map, List.filterMap_cons,
        List.filterMap_map]
    have hcomp : ((fun i => (a :: t).get? i) ∘ Nat.succ) = fun i => t.get? i := by
      funext i
      rfl
    rw [hcomp]
    have hhead : (a :: t).get? 0 = some a := rfl
    rw [hhead, ih]

/-- Under any faithful schedule the settled fan-out is a permutation of the
registry. -/
theorem getActiveProviders_perm (providers : List SwapProvider)
    (sched : List Nat) (h : List.Perm sched (List.range providers.length)) :
    List.Perm (getActiveProviders providers sched)
      (List.filter activePred providers) := by
  unfold getActiveProviders
  refine List.Perm.filter activePred ?_
  have := List.Perm.filterMap (fun i => providers.get? i) h
  rwa [filterMap_get?_range providers] at this

/-- Dummy provider whose `isInit()` resolves to `true`; every other call
rejects. -/
def okProvider (nm : String) : SwapProvider :=
  { name := nm
    isInit := Except.ok true
    isSwapSupported := fun _ _ => Except.ok false
    getSwapQuote := fun _ => Except.error ()
    getUnsignedTransaction := fun _ => Except.error ()
    supportedChains := [ChainId.ethereum] }

/-- Quotes for the C1 witness (the spec's tie scenario): two quotes tied on
output 1000 with fees 5 and 3, and a lower-output quote. -/
def demoQuotes : List ProviderQuote :=
  [ { toSwapQuote := { outputAmount := 1000, fee := 5 },
      provider := okProvider "Q1" }
  , { toSwapQuote := { outputAmount := 1000, fee := 3 },
      provider := okProvider "Q2" }
  , { toSwapQuote := { outputAmount := 900, fee := 1 },
      provider := okProvider "Q3" } ]

/-- The expected winner of the C1 witness scenario: the lower-fee quote of
the output-amount tie. -/
def demoBest : ProviderQuote :=
  { toSwapQuote := { outputAmount := 1000, fee := 3 },
    provider := okProvider "Q2" }

/-- Witness for C1 at a concrete quote list: the selector picks the
lower-fee quote of the output tie, and the selected quote satisfies all
three ordering properties. -/
theorem getBestQuote_spec_witness :
    getBestQuote demoQuotes = some demoBest
    ∧ ((∀ x ∈ demoQuotes, x.outputAmount ≤ demoBest.outputAmount)
      ∧ (∀ x ∈ demoQuotes, x.outputAmount = demoBest.outputAmount →
          demoBest.fee ≤ x.fee)
      ∧ (∃ pre post, demoQuotes = pre ++ demoBest :: post
          ∧ ∀ x ∈ pre, ¬(x.outputAmount = demoBest.outputAmount
              ∧ x.fee = demoBest.fee))) := by
  have hb : getBestQuote demoQuotes = some demoBest := by rfl
  exact ⟨hb, getBestQuote_spec demoQuotes demoBest hb⟩

/-- C3 counterexample: with two registered providers both passing `isInit()`
and a fan-out whose second call settles first (schedule `[1, 0]`, a valid
completion order of the concurrent `Promise.all`), `getActiveProviders`
returns the providers in settlement order `["B", "A"]`, not registration
order `["A", "B"]`. -/
theorem getActiveProviders_order_counterexample :
    List.Perm [1, 0] (List.range [okProvider "A", okProvider "B"].length)
    ∧ (getActiveProviders [okProvider "A", okProvider "B"] [1, 0]).map
        SwapProvider.name = ["B", "A"]
    ∧ ([okProvider "A", okProvider "B"].map SwapProvider.name = ["A", "B"])
    ∧ (["B", "A"] : List String) ≠ ["A", "B"] := by
  refine ⟨by decide, rfl, rfl, by decide⟩

/-- C3 (amended): `getActiveProviders` returns exactly the registered
providers whose `isInit()` resolves to `true` (a provider whose `isInit`
throws or returns `false` is excluded) — as a permutation of the
registration-order filter, the order being the settlement order of the
concurrent `isInit` fan-out; when the calls settle in registration order
the registration order is preserved. -/
theorem getActiveProviders_spec (providers : List SwapProvider)
    (sched : List Nat) (h : List.Perm sched (List.range providers.length)) :
    (∀ p, p ∈ getActiveProviders providers sched ↔
      p ∈ providers ∧ activePred p = true)
    ∧ List.Perm (getActiveProviders providers sched)
        (List.filter activePred providers)
    ∧ getActiveProviders providers (List.range providers.length)
        = List.filter activePred providers := by
  have hperm := getActiveProviders_perm providers sched h
  refine ⟨?_, hperm, ?_⟩
  · intro p
    rw [hperm.mem_iff, List.mem_filter]
  · unfold getActiveProviders
    rw [filterMap_get?_range providers]

/-- C3 witness data: a registry in which the second provider's `isInit()`
rejects. -/
def brokenProvider (nm : String) : SwapProvider :=
  { name := nm
    isInit := Except.error ()
    isSwapSupported := fun _ _ => Except.ok false
    getSwapQuote := fun _ => Except.error ()
    getUnsignedTransaction := fun _ => Except.error ()
    supportedChains := [] }

/-- Witness for the amended C3 theorem at a concrete registry and schedule:
of the two registered providers only the first passes `isInit()`, and the
returned pool is exactly that one provider. -/
theorem getActiveProviders_spec_witness :
    ((okProvider "A") ∈ getActiveProviders
        [okProvider "A", brokenProvider "B"] [1, 0]
      ↔ (okProvider "A") ∈ [okProvider "A", brokenProvider "B"]
          ∧ activePred (okProvider "A") = true)
    ∧ (getActiveProviders [okProvider "A", brokenProvider "B"]
          (List.range 2)).map SwapProvider.name = ["A"] := by
  have h := getActiveProviders_spec [okProvider "A", brokenProvider "B"]
    [1, 0] (by decide)
  refine ⟨h.1 (okProvider "A"), ?_⟩
  rw [show (List.range 2) = (List.range
    [okProvider "A", brokenProvider "B"].length) from rfl, h.2.2]
  rfl

/-- Per-provider body of the aggregation fan-out in `getQuotesFromProviders`:
`isSwapSupported` must resolve to `true` (a `false` or a rejection skips the
provider), then `getSwapQuote` must resolve (a rejection skips the
provider), and the successful quote is tagged with the provider. -/
def quoteEntry (params : SwapParams) (p : SwapProvider) : Option ProviderQuote :=
  match p.isSwapSupported params.fromToken params.toToken with
  | Except.ok true =>
    match p.getSwapQuote params with
    | Except.ok q => some { toSwapQuote := q, provider := p }
    | Except.error _ => none
  | _ => none

/-- `getQuotesFromProviders`: obtains the active pool (schedule
`schedInit`), then fans out the support-check/quote pipeline over it with
`Promise.all`, pushing each successful tagged quote when its callback
settles (schedule `schedQuote`, indices into the active pool in settlement
order).  Every per-provider failure is caught and logged, so the function
itself always returns the collected list. -/
def getQuotesFromProviders (providers : List SwapProvider)
    (params : SwapParams) (schedInit schedQuote : List Nat) :
    List ProviderQuote :=
  let activeProviders := getActiveProviders providers schedInit
  (schedQuote.filterMap (fun i => activeProviders.get? i)).filterMap
    (quoteEntry params)

/-- C2: under any settlement schedules, the aggregator's result is exactly
one tagged quote per active provider whose `isSwapSupported` resolved to
`true` and whose `getSwapQuote` succeeded (a permutation of the
registration-order `filterMap`); every such provider's entry is present
regardless of how the sibling providers fail, and every entry in the result
comes from such a provider.  The aggregator itself is a total function: no
provider failure escapes it. -/
theorem getQuotesFromProviders_spec (providers : List SwapProvider)
    (params : SwapParams) (schedInit schedQuote : List Nat)
    (h2 : List.Perm schedQuote
      (List.range (getActiveProviders providers schedInit).length)) :
    List.Perm (getQuotesFromProviders providers params schedInit schedQuote)
      ((getActiveProviders providers schedInit).filterMap (quoteEntry params))
    ∧ (∀ p ∈ getActiveProviders providers schedInit, ∀ q,
        p.isSwapSupported params.fromToken params.toToken = Except.ok true →
        p.getSwapQuote params = Except.ok q →
        ({ toSwapQuote := q, provider := p } : ProviderQuote)
          ∈ getQuotesFromProviders providers params schedInit schedQuote)
    ∧ (∀ e ∈ getQuotesFromProviders providers params schedInit schedQuote,
        e.provider ∈ getActiveProviders providers schedInit
        ∧ e.provider.isSwapSupported params.fromToken params.toToken
            = Except.ok true
        ∧ e.provider.getSwapQuote params = Except.ok e.toSwapQuote) := by
  have hperm : List.Perm
      (getQuotesFromProviders providers params schedInit schedQuote)
      ((getActiveProviders providers schedInit).filterMap (quoteEntry params)) := by
    unfold getQuotesFromProviders
    refine List.Perm.filterMap (quoteEntry params) ?_
    have := List.Perm.filterMap
      (fun i => (getActiveProviders providers schedInit).get? i) h2
    rwa [filterMap_get?_range (getActiveProviders providers schedInit)] at this
  refine ⟨hperm, ?_, ?_⟩
  · intro p hp q hsupp hquote
    rw [hperm.mem_iff, List.mem_filterMap]
    refine ⟨p, hp, ?_⟩
    rw [quoteEntry, hsupp, hquote]
  · intro e he
    rw [hperm.mem_iff, List.mem_filterMap] at he
    obtain ⟨p, hp, hpe⟩ := he
    rw [quoteEntry] at hpe
    rcases hsupp : p.isSwapSupported params.fromToken params.toToken with herr | b
    · rw [hsupp] at hpe
      exact absurd hpe (by simp)
    · rw [hsupp] at hpe
      cases b with
      | false => exact absurd hpe (by simp)
      | true =>
        rcases hquote : p.getSwapQuote params with herr | q
        · rw [hquote] at hpe
          exact absurd hpe (by simp)
        · rw [hquote] at hpe
          have he : ({ toSwapQuote := q, provider := p } : ProviderQuote) = e :=
            Option.some.inj hpe
          refine ⟨?_, ?_, ?_⟩
          · rw [← he]
            exact hp
          · rw [← he]
            exact hsupp
          · rw [← he]
            exact hquote

/-- Decimal-digit run to a natural number; `none` as soon as a non-digit
appears (`ethers` rejects any character outside `[0-9.]` and an optional
leading minus). The empty run denotes `0`, as in `ethers` (missing whole or
fraction part defaults to zero). -/
def digitsToNat? (l : List Char) : Option Nat :=
  l.foldl
    (fun acc c =>
      match acc with
      | some m => if c.isDigit then some (m * 10 + (c.toNat - 48)) else none
      | none => none)
    (some 0)

/-- Split a character run at the (at most one) decimal point; a second
point makes the value malformed (`ethers` rejects it). -/
def splitDot : List Char → Option (List Char × List Char)
  | [] => some ([], [])
  | c :: cs =>
    if c = '.' then (if cs.contains '.' then none else some ([], cs))
    else
      match splitDot cs with
      | some p => some (c :: p.1, p.2)
      | none => none

/-- Unsigned core of `ethers.parseUnits`: split whole and fraction, parse
both digit runs, reject a fraction longer than `d` ("too many decimals"),
and scale exactly: `whole * 10 ^ d + frac * 10 ^ (d - frac.length)`. -/
def parseUnitsCore (l : List Char) (d : Nat) : Option Nat :=
  match splitDot l with
  | none => none
  | some (w, f) =>
    match digitsToNat? w with
    | none => none
    | some wn =>
      match digitsToNat? f with
      | none => none
      | some fn =>
        if f.length ≤ d then some (wn * 10 ^ d + fn * 10 ^ (d - f.length))
        else none

/-- `ethers.parseUnits(value, decimals)`: exact fixed-point scaling of a
decimal string (optional leading minus) into base units. -/
def parseUnits (s : String) (d : Nat) : Option Int :=
  match s.toList with
  | [] =>
    match parseUnitsCore [] d with
    | some m => some ((m : Int))
    | none => none
  | c :: rest =>
    if c = '-' then
      match parseUnitsCore rest d with
      | some m => some (-(m : Int))
      | none => none
    else
      match parseUnitsCore (c :: rest) d with
      | some m => some ((m : Int))
      | none => none

/-- Modelled from the spec: the exact rational value denoted by a decimal
amount string (unsigned core).  This is the specification-side meaning of
the human-readable input amount, used to state that the normalizer scales
it with no rounding error. -/
def specDecimalValueCore (l : List Char) : Option ℚ :=
  match splitDot l with
  | none => none
  | some (w, f) =>
    match digitsToNat? w with
    | none => none
    | some wn =>
      match digitsToNat? f with
      | none => none
      | some fn => some ((wn : ℚ) + (fn : ℚ) / 10 ^ f.length)

/-- Modelled from the spec: the exact rational value denoted by a decimal
amount string, sign included. -/
def specDecimalValue (s : String) : Option ℚ :=
  match s.toList with
  | [] => specDecimalValueCore []
  | c :: rest =>
    if c = '-' then
      match specDecimalValueCore rest with
      | some q => some (-q)
      | none => none
    else specDecimalValueCore (c :: rest)

/-- The unsigned scaling of `parseUnits` is the exact rational value of the
string times `10 ^ d`. -/
theorem parseUnitsCore_exact (l : List Char) (d : Nat) (n : Nat) (q : ℚ)
    (hn : parseUnitsCore l d = some n) (hq : specDecimalValueCore l = some q) :
    (n : ℚ) = q * 10 ^ d := by
  rcases hsplit : splitDot l with _ | wf
  · simp only [parseUnitsCore, hsplit] at hn
    cases hn
  obtain ⟨w, f⟩ := wf
  rcases hw : digitsToNat? w with _ | wn
  · simp only [parseUnitsCore, hsplit, hw] at hn
    cases hn
  rcases hf : digitsToNat? f with _ | fn
  · simp only [parseUnitsCore, hsplit, hw, hf] at hn
    cases hn
  by_cases hlen : f.length ≤ d
  · simp only [parseUnitsCore, hsplit, hw, hf, if_pos hlen,
      Option.some.injEq] at hn
    simp only [specDecimalValueCore, hsplit, hw, hf, Option.some.injEq] at hq
    have hk : (10 : ℚ) ^ (d - f.length) * 10 ^ f.length = 10 ^ d := by
      rw [← pow_add]
      congr 1
      omega
    have h10 : (10 : ℚ) ^ f.length ≠ 0 := by positivity
    have hmain : ((wn : ℚ) + (fn : ℚ) / 10 ^ f.length) * 10 ^ d
        = wn * 10 ^ d + fn * 10 ^ (d - f.length) := by
      rw [← hk]
      field_simp
      ring
    rw [← hn, ← hq, hmain]
    push_cast
    ring
  · simp only [parseUnitsCore, hsplit, hw, hf, if_neg hlen] at hn
    cases hn

/-- Signed version of `parseUnitsCore_exact` for `parseUnits` itself. -/
theorem parseUnits_exact (s : String) (d : Nat) (n : Int) (q : ℚ)
    (hn : parseUnits s d = some n) (hq : specDecimalValue s = some q) :
    (n : ℚ) = q * 10 ^ d := by
  rcases hl : s.toList with _ | ⟨c, rest⟩
  · rcases hm : parseUnitsCore [] d with _ | m
    · simp only [parseUnits, hl, hm] at hn
      cases hn
    · simp only [parseUnits, hl, hm, Option.some.injEq] at hn
      simp only [specDecimalValue, hl] at hq
      have := parseUnitsCore_exact [] d m q hm hq
      rw [← hn]
      push_cast
      exact this
  · by_cases hc : c = '-'
    · rcases hm : parseUnitsCore rest d with _ | m
      · simp only [parseUnits, hl, if_pos hc, hm] at hn
        cases hn
      rcases hqc : specDecimalValueCore rest with _ | qc
      · simp only [specDecimalValue, hl, if_pos hc, hqc] at hq
        cases hq
      simp only [parseUnits, hl, if_pos hc, hm, Option.some.injEq] at hn
      simp only [specDecimalValue, hl, if_pos hc, hqc, Option.some.injEq] at hq
      have hcore := parseUnitsCore_exact rest d m qc hm hqc
      rw [← hn, ← hq]
      push_cast
      rw [hcore]
      ring
    · rcases hm : parseUnitsCore (c :: rest) d with _ | m
      · simp only [parseUnits, hl, if_neg hc, hm] at hn
        cases hn
      simp only [parseUnits, hl, if_neg hc, hm, Option.some.injEq] at hn
      simp only [specDecimalValue, hl, if_neg hc] at hq
      have hcore := parseUnitsCore_exact (c :: rest) d m q hm hq
      rw [← hn]
      push_cast
      exact hcore

/-- Inbound request (`SwapRequestDto` / `QuoteRequestDto` of the
meta-swap-api variant): chain ids may be absent (defaulted to Ethereum), the
amount is a human-readable decimal string (`normalAmountIn`), slippage is
optional (`'slippage' in request`). -/
structure SwapRequest where
  chainIn : Option ChainId
  tokenIn : String
  chainOut : Option ChainId
  tokenOut : String
  normalAmountIn : String
  slippage : Option ℚ

/-- `createSwapParams` (meta-swap-api variant): default missing chains to
Ethereum, resolve decimals for both tokens through the token-metadata
collaborator (`EvmHelper.getDecimals`, here the oracle `gd`; a failed
lookup rejects the request), scale the decimal amount with
`ethers.parseUnits` using the source token's resolved decimals, and default
slippage to 0.5. -/
def createSwapParams (gd : String → ChainId → Except Unit Nat)
    (r : SwapRequest) : Except Unit SwapParams :=
  let chainIn := r.chainIn.getD ChainId.ethereum
  let chainOut := r.chainOut.getD ChainId.ethereum
  match gd r.tokenIn chainIn with
  | Except.error e => Except.error e
  | Except.ok dIn =>
    match gd r.tokenOut chainOut with
    | Except.error e => Except.error e
    | Except.ok dOut =>
      match parseUnits r.normalAmountIn dIn with
      | none => Except.error ()
      | some amt =>
        Except.ok
          { fromToken := { address := r.tokenIn, chainId := chainIn, decimals := dIn }
            toToken := { address := r.tokenOut, chainId := chainOut, decimals := dOut }
            amount := amt
            slippageTolerance := r.slippage.getD (1 / 2)
            recipient := none }

/-- C4: whenever the normalizer succeeds, the produced `amount` is the exact
rational value of the decimal input string scaled by `10 ^ d`, where `d` is
the resolved decimals of the source token — an exact integer with no
rounding error — and the source token carries those resolved decimals. -/
theorem createSwapParams_exact (gd : String → ChainId → Except Unit Nat)
    (r : SwapRequest) (ps : SwapParams) (q : ℚ) (d : Nat)
    (hok : createSwapParams gd r = Except.ok ps)
    (hq : specDecimalValue r.normalAmountIn = some q)
    (hd : gd r.tokenIn (r.chainIn.getD ChainId.ethereum) = Except.ok d) :
    (ps.amount : ℚ) = q * 10 ^ d ∧ ps.fromToken.decimals = d := by
  rcases hout : gd r.tokenOut (r.chainOut.getD ChainId.ethereum) with _ | dOut
  · simp only [createSwapParams, hd, hout] at hok
    cases hok
  rcases hamt : parseUnits r.normalAmountIn d with _ | amt
  · simp only [createSwapParams, hd, hout, hamt] at hok
    cases hok
  simp only [createSwapParams, hd, hout, hamt, Except.ok.injEq] at hok
  constructor
  · rw [← hok]
    exact parseUnits_exact r.normalAmountIn d amt q hamt hq
  · rw [← hok]

/-- Decimals oracle for the C4 witness: every token resolves to 6
decimals. -/
def demoGd : String → ChainId → Except Unit Nat := fun _ _ => Except.ok 6

/-- Concrete request for the C4 witness: swap `"1.5"` units. -/
def demoReq : SwapRequest :=
  { chainIn := none
    tokenIn := "0xA"
    chainOut := none
    tokenOut := "0xB"
    normalAmountIn := "1.5"
    slippage := none }

/-- Witness for C4: the string `"1.5"` with 6 resolved decimals normalizes
to exactly `1500000` base units (`1.5 * 10 ^ 6` with no rounding), and the
string `"0.000001"` parses to base amount `1`. -/
theorem createSwapParams_exact_witness :
    (parseUnits "1.5" 6 = some 1500000)
    ∧ (parseUnits "0.000001" 6 = some 1)
    ∧ ((1500000 : Int) : ℚ) = (3 / 2 : ℚ) * 10 ^ 6 := by
  have hred : specDecimalValue demoReq.normalAmountIn
      = specDecimalValueCore (String.toList "1.5") := rfl
  have hcore : specDecimalValueCore (String.toList "1.5")
      = some ((1 : ℚ) + (5 : ℚ) / 10 ^ 1) := by
    have hsplit : splitDot (String.toList "1.5") = some (['1'], ['5']) := rfl
    have hw : digitsToNat? ['1'] = some 1 := rfl
    have hf : digitsToNat? ['5'] = some 5 := rfl
    simp only [specDecimalValueCore, hsplit, hw, hf, List.length_singleton]
    norm_num
  have hq : specDecimalValue demoReq.normalAmountIn = some ((3 : ℚ) / 2) := by
    rw [hred, hcore]
    congr 1
    norm_num
  have h := createSwapParams_exact demoGd demoReq
    { fromToken := { address := "0xA", chainId := ChainId.ethereum, decimals := 6 }
      toToken := { address := "0xB", chainId := ChainId.ethereum, decimals := 6 }
      amount := 1500000
      slippageTolerance := 1 / 2
      recipient := none }
    (3 / 2) 6 (by rfl) hq (by rfl)
  exact ⟨by rfl, by rfl, h.1⟩

/-- Provider for the C2 witness: initialized, supports every pair, and
returns a fixed quote. -/
def quotingProvider (nm : String) (out fee : Int) : SwapProvider :=
  { name := nm
    isInit := Except.ok true
    isSwapSupported := fun _ _ => Except.ok true
    getSwapQuote := fun _ => Except.ok { outputAmount := out, fee := fee }
    getUnsignedTransaction := fun _ => Except.error ()
    supportedChains := [ChainId.ethereum] }

/-- Provider for the C2 witness: initialized and supporting, but
`getSwapQuote` rejects. -/
def throwingQuoteProvider (nm : String) : SwapProvider :=
  { name := nm
    isInit := Except.ok true
    isSwapSupported := fun _ _ => Except.ok true
    getSwapQuote := fun _ => Except.error ()
    getUnsignedTransaction := fun _ => Except.error ()
    supportedChains := [ChainId.ethereum] }

/-- Concrete parameters shared by the execution-side witnesses. -/
def demoParams : SwapParams :=
  { fromToken := { address := "0xIN", chainId := ChainId.ethereum, decimals := 18 }
    toToken := { address := "0xOUT", chainId := ChainId.ethereum, decimals := 18 }
    amount := 1000
    slippageTolerance := 1 / 2
    recipient := none }

/-- Registry for the C2 witness: three active providers of which the middle
one throws on `getSwapQuote`. -/
def demoRegistry3 : List SwapProvider :=
  [quotingProvider "P1" 100 2, throwingQuoteProvider "P2",
   quotingProvider "P3" 90 1]

/-- Witness for C2 (the spec's end-to-end scenario): three providers, one
throwing on `getSwapQuote`, the other two succeeding — the successful
provider's entry is in the result and the result has exactly two entries. -/
theorem getQuotesFromProviders_spec_witness :
    ({ toSwapQuote := { outputAmount := 100, fee := 2 },
       provider := quotingProvider "P1" 100 2 } : ProviderQuote)
      ∈ getQuotesFromProviders demoRegistry3 demoParams [0, 1, 2] [2, 1, 0]
    ∧ (getQuotesFromProviders demoRegistry3 demoParams [0, 1, 2] [2, 1, 0]).length
        = 2 := by
  have h := getQuotesFromProviders_spec demoRegistry3 demoParams [0, 1, 2]
    [2, 1, 0] (by decide)
  refine ⟨?_, by rfl⟩
  refine h.2.1 (quotingProvider "P1" 100 2) ?_
    { outputAmount := 100, fee := 2 } (by rfl) (by rfl)
  rw [show getActiveProviders demoRegistry3 [0, 1, 2] = demoRegistry3 from rfl]
  exact List.mem_cons_self _ _

/-- Execution result (`{transactionHash, status, provider}` returned by
`_swapTokens`). -/
structure ExecResult where
  transactionHash : String
  status : String
  provider : String
deriving DecidableEq

/-- On-chain receipt as returned by the signer's `waitForTransaction`. -/
structure Receipt where
  hash : String
  status : Nat
deriving DecidableEq

/-- Observable calls made on the external signer service (`EthService`),
recorded in the order the orchestrator performs them. -/
inductive SignerCall where
  | getWallet
  | approve (tokenAddress spenderAddress amount : String)
  | send (toAddr data : String) (value : Int) (gasLimit : Option Int)
  | wait (txHash : String)
deriving DecidableEq

/-- The external signer service: wallet address plus the three fallible
operations the orchestrator drives. -/
structure Signer where
  walletAddress : String
  approveERC20IfNot : String → String → String → Except Unit Unit
  buildAndSendTransaction : String → String → Int → Option Int → Except Unit (Option String)
  waitForTransaction : String → Except Unit (Option Receipt)

/-- Error outcomes of the orchestration layer.  `noValidQuote` carries the
provider objects (as `swapTokens` passes them), `noValidQuoteNames` the
provider names (as `getQuote` passes them); `httpException` models the
`HttpException(msg, 404)` throws; the `Failure` constructors stand for
propagated provider/signer/parse rejections. -/
inductive SwapError where
  | invalidToken
  | providerFailure
  | notSupportedSigner
  | parseFailure
  | signerFailure
  | httpException (msg : String) (code : Nat)
  | noValidQuote (providers : List SwapProvider)
  | noValidQuoteNames (names : List String)
  | unsupportedProvider (nm : String)

/-- The maximum-allowance constant passed verbatim to `approveERC20IfNot`
(`'11579...935'`, the decimal rendering of `2^256 - 1`). -/
def maxUint256Str : String :=
  "115792089237316195423570985008687907853269984665640564039457584007913129639935"

/-- The recipient injection performed first by `_swapTokens`
(`params.recipient = this.etherService.getWallet().address`). -/
def injectRecipient (signer : Signer) (params : SwapParams) : SwapParams :=
  { params with recipient := some signer.walletAddress }

/-- `ethers.toBigInt` on a decimal string (optional leading minus; any
other character throws). -/
def toBigInt? (s : String) : Option Int :=
  match s.toList with
  | [] => none
  | c :: rest =>
    if c = '-' then
      match digitsToNat? rest with
      | some m => some (-(m : Int))
      | none => none
    else
      match digitsToNat? (c :: rest) with
      | some m => some ((m : Int))
      | none => none

/-- `tx.value ? ethers.parseEther(tx.value) : 0` — a missing or empty
(falsy) value yields `0`; otherwise exact 18-decimal scaling
(`parseEther = parseUnits(_, 18)`), whose failure throws. -/
def parseTxValue (v : Option String) : Option Int :=
  match v with
  | none => some 0
  | some s => if s = "" then some 0 else parseUnits s 18

/-- `tx.gasLimit ? ethers.toBigInt(tx.gasLimit) : undefined`. -/
def parseGasLimit (g : Option String) : Option (Option Int) :=
  match g with
  | none => some none
  | some s =>
    if s = "" then some none
    else
      match toBigInt? s with
      | some m => some (some m)
      | none => none

/-- `_swapTokens` (meta-swap-api variant): inject the signer's wallet
address as recipient, build the unsigned transaction, reject non-EVM
(Solana-variant) transactions with `NotSupportedSigner`, approve the
maximum uint256 allowance to the transaction target, build the envelope,
send, and wait for the receipt.  Returns the outcome together with the
trace of signer calls performed. -/
def swapTokensExec (signer : Signer) (provider : SwapProvider)
    (params : SwapParams) : Except SwapError ExecResult × List SignerCall :=
  let params2 := injectRecipient signer params
  match provider.getUnsignedTransaction params2 with
  | Except.error _ => (Except.error SwapError.providerFailure, [SignerCall.getWallet])
  | Except.ok (UnsignedTx.solana _) =>
    (Except.error SwapError.notSupportedSigner, [SignerCall.getWallet])
  | Except.ok (UnsignedTx.evm toAddr data value gasLimit) =>
    let trace1 := [SignerCall.getWallet,
      SignerCall.approve params2.fromToken.address toAddr maxUint256Str]
    match signer.approveERC20IfNot params2.fromToken.address toAddr maxUint256Str with
    | Except.error _ => (Except.error SwapError.signerFailure, trace1)
    | Except.ok _ =>
      match parseTxValue value with
      | none => (Except.error SwapError.parseFailure, trace1)
      | some v =>
        match parseGasLimit gasLimit with
        | none => (Except.error SwapError.parseFailure, trace1)
        | some g =>
          let trace2 := trace1 ++ [SignerCall.send toAddr data v g]
          match signer.buildAndSendTransaction toAddr data v g with
          | Except.error _ => (Except.error SwapError.signerFailure, trace2)
          | Except.ok none =>
            (Except.error (SwapError.httpException "Cannot send transaction" 404), trace2)
          | Except.ok (some txHash) =>
            let trace3 := trace2 ++ [SignerCall.wait txHash]
            match signer.waitForTransaction txHash with
            | Except.error _ => (Except.error SwapError.signerFailure, trace3)
            | Except.ok none =>
              (Except.error (SwapError.httpException "Cannot find transaction receipt" 404), trace3)
            | Except.ok (some receipt) =>
              (Except.ok
                { transactionHash := receipt.hash
                  status := if receipt.status = 1 then "success" else "failed"
                  provider := provider.name }, trace3)

/-- Shape of the signer-call trace of `_swapTokens`: either the run stopped
at (or before) the family check with only the wallet read performed, or the
transaction was EVM and the trace is the wallet read followed by exactly one
maximum-allowance approval to the transaction target, followed by
non-approval calls only. -/
theorem swapTokensExec_trace_cases (signer : Signer) (provider : SwapProvider)
    (params : SwapParams) :
    (swapTokensExec signer provider params).2 = [SignerCall.getWallet]
    ∨ ∃ toAddr data value gasLimit rest,
        provider.getUnsignedTransaction (injectRecipient signer params)
          = Except.ok (UnsignedTx.evm toAddr data value gasLimit)
        ∧ (swapTokensExec signer provider params).2
            = SignerCall.getWallet ::
              SignerCall.approve params.fromToken.address toAddr maxUint256Str :: rest
        ∧ ∀ t2 sp2 a2, SignerCall.approve t2 sp2 a2 ∉ rest := by
  rcases htx : provider.getUnsignedTransaction (injectRecipient signer params)
    with u | tx
  · left
    simp only [swapTokensExec, htx]
  cases tx with
  | solana instrs =>
    left
    simp only [swapTokensExec, htx]
  | evm toAddr data value gasLimit =>
    right
    rcases happ : signer.approveERC20IfNot
        (injectRecipient signer params).fromToken.address toAddr maxUint256Str
      with u | u
    · exact ⟨toAddr, data, value, gasLimit, [], rfl,
        by simp only [swapTokensExec, htx, happ]; rfl, by simp⟩
    rcases hv : parseTxValue value with _ | v
    · exact ⟨toAddr, data, value, gasLimit, [], rfl,
        by simp only [swapTokensExec, htx, happ, hv]; rfl, by simp⟩
    rcases hg : parseGasLimit gasLimit with _ | g
    · exact ⟨toAddr, data, value, gasLimit, [], rfl,
        by simp only [swapTokensExec, htx, happ, hv, hg]; rfl, by simp⟩
    rcases hsend : signer.buildAndSendTransaction toAddr data v g with u | r
    · exact ⟨toAddr, data, value, gasLimit, [SignerCall.send toAddr data v g], rfl,
        by simp only [swapTokensExec, htx, happ, hv, hg, hsend]; rfl, by simp⟩
    cases r with
    | none =>
      exact ⟨toAddr, data, value, gasLimit, [SignerCall.send toAddr data v g], rfl,
        by simp only [swapTokensExec, htx, happ, hv, hg, hsend]; rfl, by simp⟩
    | some txHash =>
      rcases hwait : signer.waitForTransaction txHash with u | rc
      · exact ⟨toAddr, data, value, gasLimit,
          [SignerCall.send toAddr data v g, SignerCall.wait txHash], rfl,
          by simp only [swapTokensExec, htx, happ, hv, hg, hsend, hwait]; rfl, by simp⟩
      cases rc with
      | none =>
        exact ⟨toAddr, data, value, gasLimit,
          [SignerCall.send toAddr data v g, SignerCall.wait txHash], rfl,
          by simp only [swapTokensExec, htx, happ, hv, hg, hsend, hwait]; rfl, by simp⟩
      | some receipt =>
        exact ⟨toAddr, data, value, gasLimit,
          [SignerCall.send toAddr data v g, SignerCall.wait txHash], rfl,
          by simp only [swapTokensExec, htx, happ, hv, hg, hsend, hwait]; rfl, by simp⟩

/-- C5: when the chosen provider's `getUnsignedTransaction` returns a
Solana-variant transaction, `_swapTokens` fails with the
`NotSupportedSigner` error right after the family check: the trace holds
only the wallet read — in particular neither the ERC-20 approval nor the
signer's build-and-send (submit) operation is ever performed. -/
theorem swapTokensExec_unsupportedSigner (signer : Signer)
    (provider : SwapProvider) (params : SwapParams) (instrs : List String)
    (h : provider.getUnsignedTransaction (injectRecipient signer params)
      = Except.ok (UnsignedTx.solana instrs)) :
    swapTokensExec signer provider params
      = (Except.error SwapError.notSupportedSigner, [SignerCall.getWallet])
    ∧ (∀ t sp a, SignerCall.approve t sp a
        ∉ (swapTokensExec signer provider params).2)
    ∧ (∀ t d v g, SignerCall.send t d v g
        ∉ (swapTokensExec signer provider params).2) := by
  have he : swapTokensExec signer provider params
      = (Except.error SwapError.notSupportedSigner, [SignerCall.getWallet]) := by
    simp only [swapTokensExec, h]
  refine ⟨he, ?_, ?_⟩
  · intro t sp a
    rw [he]
    simp
  · intro t d v g
    rw [he]
    simp

/-- Signer whose operations all succeed, used by the execution witnesses. -/
def demoSigner : Signer :=
  { walletAddress := "0xWALLET"
    approveERC20IfNot := fun _ _ _ => Except.ok ()
    buildAndSendTransaction := fun _ _ _ _ => Except.ok (some "0xTXHASH")
    waitForTransaction := fun h => Except.ok (some { hash := h, status := 1 }) }

/-- Provider returning a Solana-variant unsigned transaction. -/
def solanaProvider : SwapProvider :=
  { name := "SOLP"
    isInit := Except.ok true
    isSwapSupported := fun _ _ => Except.ok true
    getSwapQuote := fun _ => Except.ok { outputAmount := 100, fee := 1 }
    getUnsignedTransaction := fun _ => Except.ok (UnsignedTx.solana ["ix0"])
    supportedChains := [ChainId.sol] }

/-- Witness for C5 at a concrete signer, provider and request: the run
fails with `NotSupportedSigner` and only the wallet read is traced. -/
theorem swapTokensExec_unsupportedSigner_witness :
    swapTokensExec demoSigner solanaProvider demoParams
      = (Except.error SwapError.notSupportedSigner, [SignerCall.getWallet])
    ∧ (∀ t sp a, SignerCall.approve t sp a
        ∉ (swapTokensExec demoSigner solanaProvider demoParams).2) := by
  have h := swapTokensExec_unsupportedSigner demoSigner solanaProvider
    demoParams ["ix0"] (by rfl)
  exact ⟨h.1, h.2.1⟩

/-- C8: every ERC-20 approval performed during `_swapTokens` asks for
exactly the decimal string `'11579...935'` — whose numeric value is
`2 ^ 256 - 1`, the maximum unsigned 256-bit integer — independent of the
swap's own amount, with the swap's source token as the token and the
unsigned transaction's target (`tx.to`) as the spender. -/
theorem swapTokensExec_approveAmount (signer : Signer)
    (provider : SwapProvider) (params : SwapParams) (t sp a : String)
    (h : SignerCall.approve t sp a ∈ (swapTokensExec signer provider params).2) :
    a = maxUint256Str
    ∧ t = params.fromToken.address
    ∧ (∃ data value gasLimit,
        provider.getUnsignedTransaction (injectRecipient signer params)
          = Except.ok (UnsignedTx.evm sp data value gasLimit))
    ∧ digitsToNat? maxUint256Str.toList = some (2 ^ 256 - 1) := by
  have hdig : digitsToNat? maxUint256Str.toList = some (2 ^ 256 - 1) := by decide
  rcases swapTokensExec_trace_cases signer provider params with hcase |
    ⟨toAddr, data, value, gasLimit, rest, htx, htrace, hrest⟩
  · rw [hcase] at h
    simp at h
  · rw [htrace] at h
    rcases List.mem_cons.mp h with heq | h
    · cases heq
    rcases List.mem_cons.mp h with heq | h
    · injection heq with h1 h2 h3
      subst h1
      subst h2
      subst h3
      exact ⟨rfl, rfl, ⟨data, value, gasLimit, htx⟩, hdig⟩
    · exact absurd h (hrest t sp a)

/-- Provider returning a concrete EVM unsigned transaction, for the C8
witness. -/
def evmProvider : SwapProvider :=
  { name := "EVMP"
    isInit := Except.ok true
    isSwapSupported := fun _ _ => Except.ok true
    getSwapQuote := fun _ => Except.ok { outputAmount := 100, fee := 1 }
    getUnsignedTransaction := fun _ =>
      Except.ok (UnsignedTx.evm "0xDEX" "0xDATA" none none)
    supportedChains := [ChainId.ethereum] }

/-- Witness for C8: in a fully successful concrete run the approval call is
traced, and the theorem yields the maximum-allowance facts for it. -/
theorem swapTokensExec_approveAmount_witness :
    SignerCall.approve "0xIN" "0xDEX" maxUint256Str
      ∈ (swapTokensExec demoSigner evmProvider demoParams).2
    ∧ maxUint256Str = maxUint256Str
    ∧ "0xIN" = demoParams.fromToken.address
    ∧ digitsToNat? maxUint256Str.toList = some (2 ^ 256 - 1) := by
  have hmem : SignerCall.approve "0xIN" "0xDEX" maxUint256Str
      ∈ (swapTokensExec demoSigner evmProvider demoParams).2 := by
    rw [show (swapTokensExec demoSigner evmProvider demoParams).2
      = [SignerCall.getWallet,
         SignerCall.approve "0xIN" "0xDEX" maxUint256Str,
         SignerCall.send "0xDEX" "0xDATA" 0 none,
         SignerCall.wait "0xTXHASH"] from rfl]
    exact List.mem_cons_of_mem _ (List.mem_cons_self _ _)
  have h := swapTokensExec_approveAmount demoSigner evmProvider demoParams
    "0xIN" "0xDEX" maxUint256Str hmem
  exact ⟨hmem, h.1, h.2.1, h.2.2.2⟩

/-- Provider whose `getUnsignedTransaction` succeeds only when `recipient`
is still unset, making the execution step's mutation of the request
parameters observable. -/
def recipientSensitiveProvider : SwapProvider :=
  { name := "RSP"
    isInit := Except.ok true
    isSwapSupported := fun _ _ => Except.ok true
    getSwapQuote := fun _ => Except.ok { outputAmount := 100, fee := 1 }
    getUnsignedTransaction := fun ps =>
      if ps.recipient = none then
        Except.ok (UnsignedTx.evm "0xDEX" "0xDATA" none none)
      else Except.error ()
    supportedChains := [ChainId.ethereum] }

/-- C9 counterexample: `SwapParams` is not read-only through execution — the
execution step overwrites `recipient`.  A concrete request built with
`recipient = none` has `recipient = some "0xWALLET"` by the time the
provider is asked for the unsigned transaction, observably: a provider that
succeeds on the original record makes the orchestrated run fail. -/
theorem swapParams_readonly_counterexample :
    demoParams.recipient = none
    ∧ (injectRecipient demoSigner demoParams).recipient = some "0xWALLET"
    ∧ (injectRecipient demoSigner demoParams).recipient ≠ demoParams.recipient
    ∧ (swapTokensExec demoSigner recipientSensitiveProvider demoParams).1
        = Except.error SwapError.providerFailure
    ∧ recipientSensitiveProvider.getUnsignedTransaction demoParams
        = Except.ok (UnsignedTx.evm "0xDEX" "0xDATA" none none) := by
  exact ⟨rfl, rfl, by simp [injectRecipient, demoParams], rfl, rfl⟩

/-- C9 (amended): all fields of the `SwapParams` record other than
`recipient` are left unchanged by the execution step's recipient injection
(aggregation and selection read the record without modifying it), while
`recipient` is overwritten with the signer's own wallet address. -/
theorem injectRecipient_spec (signer : Signer) (params : SwapParams) :
    (injectRecipient signer params).fromToken = params.fromToken
    ∧ (injectRecipient signer params).toToken = params.toToken
    ∧ (injectRecipient signer params).amount = params.amount
    ∧ (injectRecipient signer params).slippageTolerance = params.slippageTolerance
    ∧ (injectRecipient signer params).recipient = some signer.walletAddress :=
  ⟨rfl, rfl, rfl, rfl, rfl⟩

/-- `swapTokens` (best-provider mode): normalize, aggregate (schedules
`s1`/`s2`), select; an empty selection throws `NoValidQuote` whose cause
lists the providers of a fresh `getActiveProviders()` round (schedule
`s3`); otherwise execute with the winning provider.  The second component
is the signer-call trace. -/
def swapTokens (signer : Signer) (gd : String → ChainId → Except Unit Nat)
    (providers : List SwapProvider) (s1 s2 s3 : List Nat)
    (request : SwapRequest) : Except SwapError ExecResult × List SignerCall :=
  match createSwapParams gd request with
  | Except.error _ => (Except.error SwapError.invalidToken, [])
  | Except.ok params =>
    match getBestQuote (getQuotesFromProviders providers params s1 s2) with
    | none =>
      (Except.error (SwapError.noValidQuote (getActiveProviders providers s3)), [])
    | some best => swapTokensExec signer best.provider params

/-- Result shape of `getQuote` (the decimal-string rendering
`normalAmountOut` of `amountOut` is omitted as pure formatting). -/
structure QuoteResponse where
  amountOut : Int
  provider : String
  fee : Int
  estimatedGas : Option Int

/-- `getQuote`: same pipeline as `swapTokens` but read-only; the
`NoValidQuote` cause carries the provider names
(`providers.map(p => p.getName())`). -/
def getQuote (gd : String → ChainId → Except Unit Nat)
    (providers : List SwapProvider) (s1 s2 s3 : List Nat)
    (request : SwapRequest) : Except SwapError QuoteResponse :=
  match createSwapParams gd request with
  | Except.error _ => Except.error SwapError.invalidToken
  | Except.ok params =>
    match getBestQuote (getQuotesFromProviders providers params s1 s2) with
    | none =>
      Except.error (SwapError.noValidQuoteNames
        ((getActiveProviders providers s3).map SwapProvider.name))
    | some best =>
      Except.ok
        { amountOut := best.outputAmount
          provider := best.provider.name
          fee := best.fee
          estimatedGas := best.estimatedGas }

/-- The selector yields no winner exactly on the empty quote set. -/
theorem getBestQuote_eq_none (l : List ProviderQuote) :
    getBestQuote l = none ↔ l = [] := by
  cases l with
  | nil => simp [getBestQuote]
  | cons q qs => simp [getBestQuote]

/-- C6: when the aggregation round yields an empty quote set, `swapTokens`
and `getQuote` fail with `NoValidQuote` carrying the active-provider round
(objects resp. names), not the empty quote list; no signer call is
performed; the carried pool is (for faithful schedules) a permutation of
the round's active pool, and it is the empty list whenever zero providers
were active; moreover zero active providers always produce an empty quote
set. -/
theorem noValidQuote_spec (signer : Signer)
    (gd : String → ChainId → Except Unit Nat) (providers : List SwapProvider)
    (s1 s2 s3 : List Nat) (request : SwapRequest) (params : SwapParams)
    (hp : createSwapParams gd request = Except.ok params)
    (hempty : getQuotesFromProviders providers params s1 s2 = []) :
    swapTokens signer gd providers s1 s2 s3 request
      = (Except.error (SwapError.noValidQuote (getActiveProviders providers s3)), [])
    ∧ getQuote gd providers s1 s2 s3 request
      = Except.error (SwapError.noValidQuoteNames
          ((getActiveProviders providers s3).map SwapProvider.name))
    ∧ (List.Perm s1 (List.range providers.length) →
        List.Perm s3 (List.range providers.length) →
        List.Perm (getActiveProviders providers s3)
          (getActiveProviders providers s1))
    ∧ (getActiveProviders providers s1 = [] →
        List.Perm s1 (List.range providers.length) →
        List.Perm s3 (List.range providers.length) →
        getActiveProviders providers s3 = [])
    ∧ (getActiveProviders providers s1 = [] →
        getQuotesFromProviders providers params s1 s2 = []) := by
  have hnone : getBestQuote (getQuotesFromProviders providers params s1 s2)
      = none := by
    rw [hempty]
    rfl
  refine ⟨?_, ?_, ?_, ?_, ?_⟩
  · simp only [swapTokens, hp, hnone]
  · simp only [getQuote, hp, hnone]
  · intro h1 h3
    exact (getActiveProviders_perm providers s3 h3).trans
      (getActiveProviders_perm providers s1 h1).symm
  · intro hzero h1 h3
    have hfilter : List.filter activePred providers = [] :=
      List.Perm.eq_nil ((getActiveProviders_perm providers s1 h1).symm.trans
        (hzero ▸ List.Perm.refl []))
    exact List.Perm.eq_nil
      ((getActiveProviders_perm providers s3 h3).trans
        (hfilter ▸ List.Perm.refl _))
  · intro hzero
    have hgets : s2.filterMap
        (fun i => ([] : List SwapProvider).get? i) = [] := by
      induction s2 with
      | nil => rfl
      | cons a t ih => simp [List.filterMap_cons, ih]
    simp only [getQuotesFromProviders, hzero, hgets]
    rfl

/-- Registry for the C6 witness: a single provider whose `isInit()`
rejects, i.e. zero active providers. -/
def demoRegistryDead : List SwapProvider := [brokenProvider "DEAD"]

/-- Witness for C6 at a concrete request with zero active providers: both
entry points fail with a `NoValidQuote` carrying the empty provider pool,
and no signer call is traced. -/
theorem noValidQuote_spec_witness :
    swapTokens demoSigner demoGd demoRegistryDead [0] [] [0] demoReq
      = (Except.error (SwapError.noValidQuote []), [])
    ∧ getQuote demoGd demoRegistryDead [0] [] [0] demoReq
      = Except.error (SwapError.noValidQuoteNames []) := by
  have h := noValidQuote_spec demoSigner demoGd demoRegistryDead [0] [] [0]
    demoReq
    { fromToken := { address := "0xA", chainId := ChainId.ethereum, decimals := 6 }
      toToken := { address := "0xB", chainId := ChainId.ethereum, decimals := 6 }
      amount := 1500000
      slippageTolerance := 1 / 2
      recipient := none }
    (by rfl) (by rfl)
  exact ⟨h.1, h.2.1⟩

/-- `swapTokensByProvider` (explicit-provider mode): look the named provider
up among the currently active providers (first match wins, registration
order of the settled pool); an unknown name throws
`Unsupported provider: ...` before any normalization or signer work;
otherwise normalize and execute with the named provider. -/
def swapTokensByProvider (signer : Signer)
    (gd : String → ChainId → Except Unit Nat) (providers : List SwapProvider)
    (sched : List Nat) (providerName : String) (request : SwapRequest) :
    Except SwapError ExecResult × List SignerCall :=
  match (getActiveProviders providers sched).find?
      (fun p => p.name == providerName) with
  | none => (Except.error (SwapError.unsupportedProvider providerName), [])
  | some target =>
    match createSwapParams gd request with
    | Except.error _ => (Except.error SwapError.invalidToken, [])
    | Except.ok params => swapTokensExec signer target params

/-- C7: a provider name matching no active provider makes
`swapTokensByProvider` fail with `UnsupportedProviderError` regardless of
everything else — with an empty signer trace and a result independent of
the token-metadata oracle and the signer (no normalization-dependent step,
no signer call); a name matching an active provider proceeds directly to
execution with that provider. -/
theorem swapTokensByProvider_spec (signer : Signer)
    (gd : String → ChainId → Except Unit Nat) (providers : List SwapProvider)
    (sched : List Nat) (providerName : String) (request : SwapRequest) :
    ((∀ p ∈ getActiveProviders providers sched, p.name ≠ providerName) →
      swapTokensByProvider signer gd providers sched providerName request
        = (Except.error (SwapError.unsupportedProvider providerName), [])
      ∧ ∀ (signer2 : Signer) (gd2 : String → ChainId → Except Unit Nat),
          swapTokensByProvider signer gd providers sched providerName request
            = swapTokensByProvider signer2 gd2 providers sched providerName request)
    ∧ (∀ target, (getActiveProviders providers sched).find?
          (fun p => p.name == providerName) = some target →
        ∀ params, createSwapParams gd request = Except.ok params →
          swapTokensByProvider signer gd providers sched providerName request
            = swapTokensExec signer target params) := by
  constructor
  · intro hnone
    have hfind : (getActiveProviders providers sched).find?
        (fun p => p.name == providerName) = none := by
      rw [List.find?_eq_none]
      intro p hp
      simp only [beq_iff_eq]
      exact hnone p hp
    constructor
    · simp only [swapTokensByProvider, hfind]
    · intro signer2 gd2
      simp only [swapTokensByProvider, hfind]
  · intro target hfind params hparams
    simp only [swapTokensByProvider, hfind, hparams]

/-- Witness for C7: a registry whose only active provider is named `"A"`,
queried for `"unknown"` — the call fails with `UnsupportedProviderError`
and traces no signer call. -/
theorem swapTokensByProvider_spec_witness :
    swapTokensByProvider demoSigner demoGd [okProvider "A"] [0] "unknown"
        demoReq
      = (Except.error (SwapError.unsupportedProvider "unknown"), []) := by
  have h := (swapTokensByProvider_spec demoSigner demoGd [okProvider "A"] [0]
    "unknown" demoReq).1 ?_
  · exact h.1
  · intro p hp
    rw [show getActiveProviders [okProvider "A"] [0] = [okProvider "A"]
      from rfl] at hp
    rcases List.mem_cons.mp hp with rfl | hp
    · intro hcon
      exact absurd hcon (by decide)
    · cases hp

/-- Base-token object of a DexScreener pair. -/
structure DexBaseToken where
  address : String
  symbol : String
deriving DecidableEq

/-- A DexScreener pair as consumed by `getTokenInfos`: optional liquidity
object (its `usd` value), optional base token, and the external chain-name
string. -/
structure DexPair where
  liquidityUsd : Option ℚ
  baseToken : Option DexBaseToken
  chainId : String

/-- Token-search result entry (`TokenInfo`). -/
structure TokenInfo where
  address : String
  symbol : String
  decimals : Nat
  chainId : ChainId
deriving DecidableEq

/-- The fixed `dexScreenChainIdMap` (`solana`/`ethereum`; unmapped chain
names are dropped). -/
def dexScreenChainIdMap (s : String) : Option ChainId :=
  if s = "solana" then some ChainId.sol
  else if s = "ethereum" then some ChainId.ethereum
  else none

/-- `pair.liquidity && pair.liquidity.usd >= 50000`: a missing liquidity
object is falsy. -/
def liquidityOk (p : DexPair) : Bool :=
  match p.liquidityUsd with
  | some u => decide ((50000 : ℚ) ≤ u)
  | none => false

/-- Body of the token-extraction `forEach`: require a truthy base token with
a truthy (non-empty) address not yet in the map, then a mapped chain id,
and insert (the `Map` preserves insertion order, modelled by appending). -/
def tokenStep (acc : List TokenInfo) (p : DexPair) : List TokenInfo :=
  match p.baseToken with
  | none => acc
  | some bt =>
    if bt.address = "" then acc
    else if acc.any (fun t => t.address == bt.address) then acc
    else
      match dexScreenChainIdMap p.chainId with
      | some cid =>
        acc ++ [{ address := bt.address, symbol := bt.symbol, decimals := 18,
                  chainId := cid }]
      | none => acc

/-- `getTokenInfos` on an already-decoded pair list: keep pairs with
liquidity ≥ 50000 USD, then extract unique tokens in order
(`Array.from(tokenMap.values())`). -/
def getTokenInfos (pairs : List DexPair) : List TokenInfo :=
  (pairs.filter liquidityOk).foldl tokenStep []

/-- The token a pair would contribute, ignoring the deduplication check:
requires a base token with a non-empty address and a mapped chain; the
decimals are the constant 18 (`decimals: 18, // Most tokens use 18
decimals`). -/
def pairToken (p : DexPair) : Option TokenInfo :=
  match p.baseToken with
  | none => none
  | some bt =>
    if bt.address = "" then none
    else
      match dexScreenChainIdMap p.chainId with
      | some cid =>
        some { address := bt.address, symbol := bt.symbol, decimals := 18,
               chainId := cid }
      | none => none

/-- `tokenStep` in terms of `pairToken`: insert the pair's token unless its
address is already present.  (When the pair contributes no token the
address-presence check short-circuits to the same `acc`.) -/
theorem tokenStep_eq (acc : List TokenInfo) (p : DexPair) :
    tokenStep acc p =
      match pairToken p with
      | none => acc
      | some t =>
        if acc.any (fun t2 => t2.address == t.address) then acc
        else acc ++ [t] := by
  rcases hbt : p.baseToken with _ | bt
  · simp [tokenStep, pairToken, hbt]
  · by_cases haddr : bt.address = ""
    · simp [tokenStep, pairToken, hbt, haddr]
    · rcases hcid : dexScreenChainIdMap p.chainId with _ | cid
      · simp [tokenStep, pairToken, hbt, haddr, hcid]
      · simp [tokenStep, pairToken, hbt, haddr, hcid]

/-- A pair contributing no token leaves the collection unchanged. -/
theorem tokenStep_none (acc : List TokenInfo) (p : DexPair)
    (h : pairToken p = none) : tokenStep acc p = acc := by
  simp [tokenStep_eq, h]

/-- A pair whose token address is already collected is skipped. -/
theorem tokenStep_some_dup (acc : List TokenInfo) (p : DexPair)
    (t : TokenInfo) (h : pairToken p = some t)
    (ha : acc.any (fun t2 => t2.address == t.address) = true) :
    tokenStep acc p = acc := by
  simp [tokenStep_eq, h, ha]

/-- A pair contributing a fresh address appends its token. -/
theorem tokenStep_some_new (acc : List TokenInfo) (p : DexPair)
    (t : TokenInfo) (h : pairToken p = some t)
    (ha : acc.any (fun t2 => t2.address == t.address) = false) :
    tokenStep acc p = acc ++ [t] := by
  simp [tokenStep_eq, h, ha]

/-- A token already collected survives every later pair. -/
theorem tokenStep_sublist (acc : List TokenInfo) (p : DexPair)
    (t : TokenInfo) (ht : t ∈ acc) : t ∈ tokenStep acc p := by
  rcases hpt : pairToken p with _ | t2
  · rw [tokenStep_none acc p hpt]
    exact ht
  · cases ha : acc.any (fun t2b => t2b.address == t2.address) with
    | true =>
      rw [tokenStep_some_dup acc p t2 hpt ha]
      exact ht
    | false =>
      rw [tokenStep_some_new acc p t2 hpt ha]
      exact List.mem_append_left _ ht

/-- Collected tokens survive the whole fold. -/
theorem foldl_tokenStep_mono (l : List DexPair) : ∀ acc t, t ∈ acc →
    t ∈ l.foldl tokenStep acc := by
  induction l with
  | nil => exact fun acc t ht => ht
  | cons p l ih =>
    intro acc t ht
    exact ih _ t (tokenStep_sublist acc p t ht)

/-- After processing a pair that contributes a token, some collected token
carries that address. -/
theorem tokenStep_addr_covered (acc : List TokenInfo) (p : DexPair)
    (t : TokenInfo) (hpt : pairToken p = some t) :
    ∃ t2 ∈ tokenStep acc p, t2.address = t.address := by
  cases ha : acc.any (fun t2 => t2.address == t.address) with
  | true =>
    rw [tokenStep_some_dup acc p t hpt ha]
    obtain ⟨t2, ht2, he⟩ := List.any_eq_true.mp ha
    exact ⟨t2, ht2, by simpa using he⟩
  | false =>
    rw [tokenStep_some_new acc p t hpt ha]
    exact ⟨t, List.mem_append_right _ (List.mem_cons_self t []), rfl⟩

/-- Every token in the fold's output either was already collected or stems
from the first qualifying pair bearing its address. -/
theorem foldl_tokenStep_origin (l : List DexPair) : ∀ acc t,
    t ∈ l.foldl tokenStep acc →
    t ∈ acc ∨ ∃ pre p post, l = pre ++ p :: post ∧ pairToken p = some t
      ∧ (∀ t2 ∈ acc, t2.address ≠ t.address)
      ∧ (∀ p2 ∈ pre, ∀ t2, pairToken p2 = some t2 → t2.address ≠ t.address) := by
  induction l with
  | nil => exact fun acc t ht => Or.inl ht
  | cons p l ih =>
    intro acc t ht
    rcases ih (tokenStep acc p) t ht with hin |
      ⟨pre, p2, post, hsplit, hpt, hacc, hpre⟩
    · rcases hpt : pairToken p with _ | t0
      · rw [tokenStep_none acc p hpt] at hin
        exact Or.inl hin
      · cases ha : acc.any (fun t2 => t2.address == t0.address) with
        | true =>
          rw [tokenStep_some_dup acc p t0 hpt ha] at hin
          exact Or.inl hin
        | false =>
          rw [tokenStep_some_new acc p t0 hpt ha] at hin
          rcases List.mem_append.mp hin with hin | hin
          · exact Or.inl hin
          · have heq : t = t0 := by simpa using hin
            subst heq
            refine Or.inr ⟨[], p, l, rfl, hpt, ?_, by simp⟩
            intro t2 ht2 hcon
            have : acc.any (fun t2b => t2b.address == t.address) = true :=
              List.any_eq_true.mpr ⟨t2, ht2, by simp [hcon]⟩
            rw [this] at ha
            cases ha
    · right
      refine ⟨p :: pre, p2, post, by rw [hsplit, List.cons_append], hpt, ?_, ?_⟩
      · intro t2 ht2
        exact hacc t2 (tokenStep_sublist acc p t2 ht2)
      · intro p3 hp3 t2 hpt2
        rcases List.mem_cons.mp hp3 with rfl | hp3
        · obtain ⟨t3, ht3, he3⟩ := tokenStep_addr_covered acc p3 t2 hpt2
          intro hcon
          exact (hacc t3 ht3) (he3.trans hcon)
        · exact hpre p3 hp3 t2 hpt2

/-- The fold keeps collected addresses pairwise distinct. -/
theorem foldl_tokenStep_pairwise (l : List DexPair) : ∀ acc,
    acc.Pairwise (fun a b => a.address ≠ b.address) →
    (l.foldl tokenStep acc).Pairwise (fun a b => a.address ≠ b.address) := by
  induction l with
  | nil => exact fun acc h => h
  | cons p l ih =>
    intro acc h
    apply ih
    rcases hpt : pairToken p with _ | t0
    · rw [tokenStep_none acc p hpt]
      exact h
    · cases ha : acc.any (fun t2 => t2.address == t0.address) with
      | true =>
        rw [tokenStep_some_dup acc p t0 hpt ha]
        exact h
      | false =>
        rw [tokenStep_some_new acc p t0 hpt ha]
        rw [List.pairwise_append]
        refine ⟨h, by simp, ?_⟩
        intro a hain b hbin
        have heq : b = t0 := by simpa using hbin
        subst heq
        intro hcon
        have : acc.any (fun t2 => t2.address == b.address) = true :=
          List.any_eq_true.mpr ⟨a, hain, by simp [hcon]⟩
        rw [this] at ha
        cases ha

/-- A contributed token always carries the constant 18 decimals. -/
theorem pairToken_decimals (p : DexPair) (t : TokenInfo)
    (h : pairToken p = some t) : t.decimals = 18 := by
  rcases hbt : p.baseToken with _ | bt
  · simp [pairToken, hbt] at h
  · by_cases haddr : bt.address = ""
    · simp [pairToken, hbt, haddr] at h
    · rcases hcid : dexScreenChainIdMap p.chainId with _ | cid
      · simp [pairToken, hbt, haddr, hcid] at h
      · simp only [pairToken, hbt, hcid, if_neg haddr] at h
        have heq := Option.some.inj h
        rw [← heq]

/-- Every token the fold emits has 18 decimals. -/
theorem foldl_tokenStep_decimals (l : List DexPair) : ∀ acc,
    (∀ t ∈ acc, t.decimals = 18) →
    ∀ t ∈ l.foldl tokenStep acc, t.decimals = 18 := by
  induction l with
  | nil => exact fun acc h => h
  | cons p l ih =>
    intro acc h
    apply ih
    intro t ht
    rcases hpt : pairToken p with _ | t0
    · rw [tokenStep_none acc p hpt] at ht
      exact h t ht
    · cases ha : acc.any (fun t2 => t2.address == t0.address) with
      | true =>
        rw [tokenStep_some_dup acc p t0 hpt ha] at ht
        exact h t ht
      | false =>
        rw [tokenStep_some_new acc p t0 hpt ha] at ht
        rcases List.mem_append.mp ht with ht | ht
        · exact h t ht
        · have heq : t = t0 := by simpa using ht
          subst heq
          exact pairToken_decimals p t hpt

/-- C10: every `TokenInfo` returned by `getTokenInfos` has `decimals = 18`
(the constant written in the source; actual on-chain decimals are never
looked up); the result holds at most one entry per token address; and each
entry stems from the first qualifying high-liquidity pair bearing its
address — even when the same address appears on other chains, no second
entry is produced. -/
theorem getTokenInfos_spec (pairs : List DexPair) :
    (∀ t ∈ getTokenInfos pairs, t.decimals = 18)
    ∧ (getTokenInfos pairs).Pairwise (fun a b => a.address ≠ b.address)
    ∧ (∀ t ∈ getTokenInfos pairs, ∃ pre p post,
        pairs.filter liquidityOk = pre ++ p :: post ∧ pairToken p = some t
        ∧ ∀ p2 ∈ pre, ∀ t2, pairToken p2 = some t2
            → t2.address ≠ t.address) := by
  refine ⟨foldl_tokenStep_decimals _ [] (by simp),
    foldl_tokenStep_pairwise _ [] (by simp), ?_⟩
  intro t ht
  rcases foldl_tokenStep_origin (pairs.filter liquidityOk) [] t ht with hin |
    ⟨pre, p, post, hsplit, hpt, hacc, hpre⟩
  · cases hin
  · exact ⟨pre, p, post, hsplit, hpt, hpre⟩

/-- Pair list for the C10 witness: the same address on two chains (second
occurrence ignored), a low-liquidity pair (filtered out) and an unmapped
chain (dropped). -/
def demoPairs : List DexPair :=
  [ { liquidityUsd := some 60000
      baseToken := some { address := "0xT1", symbol := "T1" }
      chainId := "ethereum" }
  , { liquidityUsd := some 70000
      baseToken := some { address := "0xT1", symbol := "T1SOL" }
      chainId := "solana" }
  , { liquidityUsd := some 10
      baseToken := some { address := "0xT2", symbol := "T2" }
      chainId := "ethereum" }
  , { liquidityUsd := some 80000
      baseToken := some { address := "0xT3", symbol := "T3" }
      chainId := "base" } ]

/-- Witness for C10: the concrete search result holds exactly the first
pair's token, with 18 decimals. -/
theorem getTokenInfos_spec_witness :
    ({ address := "0xT1", symbol := "T1", decimals := 18,
       chainId := ChainId.ethereum } : TokenInfo) ∈ getTokenInfos demoPairs
    ∧ ({ address := "0xT1", symbol := "T1", decimals := 18,
         chainId := ChainId.ethereum } : TokenInfo).decimals = 18
    ∧ (getTokenInfos demoPairs).length = 1 := by
  have hres : getTokenInfos demoPairs
      = [({ address := "0xT1", symbol := "T1", decimals := 18,
            chainId := ChainId.ethereum } : TokenInfo)] := by rfl
  have hmem : ({ address := "0xT1", symbol := "T1", decimals := 18,
                 chainId := ChainId.ethereum } : TokenInfo)
      ∈ getTokenInfos demoPairs := by
    rw [hres]
    exact List.mem_cons_self _ _
  refine ⟨hmem, (getTokenInfos_spec demoPairs).1 _ hmem, ?_⟩
  rw [hres]
  rfl

end SwapCore
